import Mathlib

/-!
# Student-management backend (`src/index.js`): assignments and the unique-number sequence

A shallow embedding of the Express/Mongoose program in `src/index.js`.

* The database is an explicit `Store`: the `loginDetails` collection, the
  `assignmentDetails` collection and the row of the sequence collection named
  `'assignmentUniqueNo'` (absent, or present with its `seq`).
* Every `await`ed database call is a function on the store that either succeeds
  or throws; a handler receives a fault schedule saying which of its database
  calls (numbered in program order, from 0) fails with a storage error.
* Each route handler is split the way the source is: the body of its `try`
  block (`...Try`, which may end in an exception) and the handler itself, which
  adds the `catch` clause.
* JavaScript library routines that are not part of the repository (`new Date(str)`,
  `bcrypt.hash`, `bcrypt.compare`) are parameters, collected in `Env`.
* Numbers are mathematical integers (the range in which JavaScript numbers and
  the stored counter are exact); dates are milliseconds since the epoch.
-/

namespace StudentManageSystem

/-! ## Data model -/

/-- What a `catch` clause can receive. -/
inductive Exn where
  /-- The database call failed (storage or connectivity). -/
  | storage
  /-- An insert violated a unique index (`email`, `uniqueNo`). -/
  | duplicateKey
  /-- The `bcrypt.compare` routine was called with a missing argument. -/
  | illegalArguments
  deriving DecidableEq, Repr

/-- A document of `loginDetails` (`userSchema`, lines 17-21). A field that is
`undefined` in JavaScript is `none`. -/
structure User where
  name : Option String
  email : Option String
  password : Option String
  deriving DecidableEq, Repr

/-- A document of `assignmentDetails` (`assignmentSchema`, lines 37-42). -/
structure Assignment where
  title : Option String
  description : Option String
  dueDate : Int
  uniqueNo : Int
  deriving DecidableEq, Repr

/-- The database: both collections and the `seq` of the sequence row named
`'assignmentUniqueNo'` (`none` when that row does not exist). -/
structure Store where
  users : List User
  assignments : List Assignment
  seq : Option Int
  deriving DecidableEq, Repr

/-- Library routines the program calls: `new Date(str).getTime()` (`none` for
`NaN`), `bcrypt.hash` with a generated salt, and `bcrypt.compare`. -/
structure Env where
  parseDate : String → Option Int
  hash : String → String
  compare : String → String → Bool

/-- What `res` sends back. -/
inductive Body where
  | text (s : String)
  | json (a : Assignment)
  /-- The text `error.message` of a caught exception. -/
  | message (e : Exn)
  deriving DecidableEq, Repr

/-- An HTTP response; `res.send` and `res.json` without `res.status` give 200. -/
structure Response where
  status : Nat
  body : Body
  deriving DecidableEq, Repr

/-- The outcome of a `try` block: the response it sent, or the exception that
reaches `catch`. -/
inductive Outcome where
  | sent (r : Response)
  | threw (e : Exn)
  deriving DecidableEq, Repr

/-- A fault schedule: `f i = true` when the `i`-th database call of the run
throws a storage error. -/
abbrev Faults := Nat → Bool

/-- The schedule under which no database call fails. -/
def noFaults : Faults := fun _ => false

/-! ## Database calls -/

/-- The query `Assignment.findOne({ uniqueNo })`: the first stored document with
that number. -/
def findAssignment (s : Store) (k : Int) : Option Assignment :=
  s.assignments.find? (fun a => a.uniqueNo == k)

/-- The query `User.findOne({ email })`. -/
def findUser (s : Store) (email : Option String) : Option User :=
  s.users.find? (fun u => u.email == email)

/-- Inserting a new assignment document (`newAssignment.save()`, line 140): the
unique index on `uniqueNo` rejects a number that is already stored. -/
def insertAssignment (fault : Bool) (s : Store) (a : Assignment) : Option Exn × Store :=
  if fault then (some .storage, s)
  else if s.assignments.any (fun b => b.uniqueNo == a.uniqueNo) then (some .duplicateKey, s)
  else (none, { s with assignments := s.assignments ++ [a] })

/-- Replaces the first document whose `uniqueNo` is `k` by `a`. -/
def replaceFirst (k : Int) (a : Assignment) : List Assignment → List Assignment
  | [] => []
  | b :: rest => if b.uniqueNo == k then a :: rest else b :: replaceFirst k a rest

/-- Removes the first document whose `uniqueNo` is `k`. -/
def removeFirst (k : Int) : List Assignment → List Assignment
  | [] => []
  | b :: rest => if b.uniqueNo == k then rest else b :: removeFirst k rest

/-- Saving a document obtained from `findOne({ uniqueNo: k })` after its fields
were assigned (`assignment.save()`, line 221). -/
def saveAssignment (fault : Bool) (s : Store) (k : Int) (a : Assignment) : Option Exn × Store :=
  if fault then (some .storage, s)
  else (none, { s with assignments := replaceFirst k a s.assignments })

/-- The call `Assignment.deleteOne({ uniqueNo })` (line 160). -/
def deleteOneAssignment (fault : Bool) (s : Store) (k : Int) : Option Exn × Store :=
  if fault then (some .storage, s)
  else (none, { s with assignments := removeFirst k s.assignments })

/-- Saving a new user (`newUser.save()`, line 81) with the `pre('save')` hook of
lines 23-29: a supplied password is stored hashed; the unique index on `email`
rejects an address that is already stored. -/
def saveUser (env : Env) (fault : Bool) (s : Store) (name email password : Option String) :
    Option Exn × Store :=
  if fault then (some .storage, s)
  else if s.users.any (fun v => v.email == email) then (some .duplicateKey, s)
  else (none, { s with users := s.users ++ [⟨name, email, password.map env.hash⟩] })

/-! ## The sequence (lines 53-67) -/

/-- Source `getNextUniqueNo` (lines 53-60): one `findOneAndUpdate` with
`$inc: { seq: 1 }`, `new: true`, `upsert: true`; returns the new `seq`. -/
def getNextUniqueNo (fault : Bool) (s : Store) : Except Exn Int × Store :=
  if fault then (.error .storage, s)
  else
    match s.seq with
    | some n => (.ok (n + 1), { s with seq := some (n + 1) })
    | none => (.ok 1, { s with seq := some 1 })

/-- Source `initializeSequence` (lines 62-67): `findOne` (call 0), then `create`
with `seq: 0` (call 1) when nothing was found. -/
def initializeSequence (f : Faults) (s : Store) : Option Exn × Store :=
  if f 0 then (some .storage, s)
  else
    match s.seq with
    | some _ => (none, s)
    | none =>
      if f 1 then (some .storage, s)
      else (none, { s with seq := some 0 })

/-! ## Request bodies -/

/-- Body of `POST /register`. -/
structure RegisterBody where
  name : Option String
  email : Option String
  password : Option String
  deriving DecidableEq, Repr

/-- Body of `POST /login`. -/
structure LoginBody where
  email : Option String
  password : Option String
  deriving DecidableEq, Repr

/-- Body of `POST /assignments`; `uniqueNo = none` is `uniqueNo === undefined`. -/
structure CreateBody where
  title : Option String
  description : Option String
  dueDate : Option String
  uniqueNo : Option Int
  deriving DecidableEq, Repr

/-- Body of `PUT /assignments/:uniqueNo`. -/
structure UpdateBody where
  title : Option String
  description : Option String
  dueDate : Option String
  deriving DecidableEq, Repr

/-! ## `POST /register` and `POST /login` (lines 71-109) -/

/-- The `try` block of `POST /register` (lines 75-82). -/
def registerTry (env : Env) (f : Faults) (s : Store) (b : RegisterBody) : Outcome × Store :=
  match saveUser env (f 0) s b.name b.email b.password with
  | (some e, s1) => (.threw e, s1)
  | (none, s1) => (.sent ⟨200, .text "Registered Successfully"⟩, s1)

/-- Handler `app.post("/register")`: the `catch` of lines 83-86 answers 400. -/
def register (env : Env) (f : Faults) (s : Store) (b : RegisterBody) : Response × Store :=
  match registerTry env f s b with
  | (.sent r, s1) => (r, s1)
  | (.threw e, s1) => (⟨400, .message e⟩, s1)

/-- The method `comparePassword` (lines 31-33): `bcrypt.compare` rejects a
missing argument. -/
def comparePassword (env : Env) (u : User) (password : Option String) : Except Exn Bool :=
  match password, u.password with
  | some p, some h => .ok (env.compare p h)
  | _, _ => .error .illegalArguments

/-- The `try` block of `POST /login` (lines 93-104). -/
def loginTry (env : Env) (f : Faults) (s : Store) (b : LoginBody) : Outcome × Store :=
  if f 0 then (.threw .storage, s)
  else
    match findUser s b.email with
    | none => (.sent ⟨400, .text "User not found"⟩, s)
    | some user =>
      match comparePassword env user b.password with
      | .error e => (.threw e, s)
      | .ok false => (.sent ⟨400, .text "Invalid credentials"⟩, s)
      | .ok true => (.sent ⟨200, .text "Login Successful"⟩, s)

/-- Handler `app.post("/login")`: the `catch` of lines 105-108 answers 400. -/
def login (env : Env) (f : Faults) (s : Store) (b : LoginBody) : Response × Store :=
  match loginTry env f s b with
  | (.sent r, s1) => (r, s1)
  | (.threw e, s1) => (⟨400, .message e⟩, s1)

/-! ## `POST /assignments` (lines 111-146) -/

def invalidDateText : String := "Invalid date format. Please use YYYY-MM-DD."

def duplicateText : String :=
  "Unique number already exists. Please provide a different unique number or omit it to auto-generate."

/-- Line 115-117: `new Date(dueDate)` and its `getTime()`; `new Date(undefined)`
is an invalid date. -/
def parseDueDate (env : Env) (dueDate : Option String) : Option Int :=
  match dueDate with
  | none => none
  | some str => env.parseDate str

/-- How the block of lines 121-131 ends. -/
inductive Chosen where
  /-- Control reaches line 133 with this value in `newUniqueNo`. -/
  | value (n : Int)
  /-- The early return of line 129. -/
  | duplicate
  | threw (e : Exn)
  deriving DecidableEq, Repr

/-- Lines 121-131: the choice of `newUniqueNo`. Database call 0 of the handler is
either `getNextUniqueNo` or the `findOne` of line 127. -/
def chooseUniqueNo (f : Faults) (s : Store) (uniqueNo : Option Int) : Chosen × Store :=
  match uniqueNo with
  | none =>
    match getNextUniqueNo (f 0) s with
    | (.error e, s1) => (.threw e, s1)
    | (.ok n, s1) => (.value n, s1)
  | some k =>
    if f 0 then (.threw .storage, s)
    else
      match findAssignment s k with
      | some _ => (.duplicate, s)
      | none => (.value k, s)

/-- The `try` block of `POST /assignments` (lines 115-141). -/
def postAssignmentsTry (env : Env) (f : Faults) (s : Store) (b : CreateBody) : Outcome × Store :=
  match parseDueDate env b.dueDate with
  | none => (.sent ⟨400, .text invalidDateText⟩, s)
  | some parsedDueDate =>
    match chooseUniqueNo f s b.uniqueNo with
    | (.threw e, s1) => (.threw e, s1)
    | (.duplicate, s1) => (.sent ⟨400, .text duplicateText⟩, s1)
    | (.value newUniqueNo, s1) =>
      match insertAssignment (f 1) s1 ⟨b.title, b.description, parsedDueDate, newUniqueNo⟩ with
      | (some e, s2) => (.threw e, s2)
      | (none, s2) => (.sent ⟨200, .text "Assignment Created Successfully"⟩, s2)

/-- Handler `app.post("/assignments")`: the `catch` of lines 142-145 answers 400. -/
def postAssignments (env : Env) (f : Faults) (s : Store) (b : CreateBody) : Response × Store :=
  match postAssignmentsTry env f s b with
  | (.sent r, s1) => (r, s1)
  | (.threw e, s1) => (⟨400, .message e⟩, s1)

/-! ## `DELETE`, `GET` and `PUT /assignments/:uniqueNo` (lines 148-228)

The route parameter is the number Mongoose casts the path segment to. -/

def notFoundText : String := "Assignment not found"

def internalErrorResponse : Response := ⟨500, .text "Internal Server Error"⟩

/-- The `try` block of `DELETE /assignments/:uniqueNo` (lines 152-162). -/
def deleteAssignmentTry (f : Faults) (s : Store) (uniqueNo : Int) : Outcome × Store :=
  if f 0 then (.threw .storage, s)
  else
    match findAssignment s uniqueNo with
    | none => (.sent ⟨404, .text notFoundText⟩, s)
    | some _ =>
      match deleteOneAssignment (f 1) s uniqueNo with
      | (some e, s1) => (.threw e, s1)
      | (none, s1) => (.sent ⟨200, .text "Assignment Deleted Successfully"⟩, s1)

/-- Handler `app.delete("/assignments/:uniqueNo")`: the `catch` of lines 163-166
answers 500. -/
def deleteAssignment (f : Faults) (s : Store) (uniqueNo : Int) : Response × Store :=
  match deleteAssignmentTry f s uniqueNo with
  | (.sent r, s1) => (r, s1)
  | (.threw _, s1) => (internalErrorResponse, s1)

/-- The `try` block of `GET /assignments/:uniqueNo` (lines 174-180). -/
def getAssignmentTry (f : Faults) (s : Store) (uniqueNo : Int) : Outcome × Store :=
  if f 0 then (.threw .storage, s)
  else
    match findAssignment s uniqueNo with
    | none => (.sent ⟨404, .text notFoundText⟩, s)
    | some assignment => (.sent ⟨200, .json assignment⟩, s)

/-- Handler `app.get("/assignments/:uniqueNo")`: the `catch` of lines 181-184
answers 500. -/
def getAssignment (f : Faults) (s : Store) (uniqueNo : Int) : Response × Store :=
  match getAssignmentTry f s uniqueNo with
  | (.sent r, s1) => (r, s1)
  | (.threw _, s1) => (internalErrorResponse, s1)

/-- The variable `parsedDueDate` of the `PUT` handler after lines 194-200. -/
inductive ParsedDueDate where
  /-- The guard `if (dueDate)` was false: the variable stays `undefined`. -/
  | undefined
  /-- The date did not parse: the early return of line 198. -/
  | invalid
  | date (ms : Int)
  deriving DecidableEq, Repr

/-- Lines 194-200. The guard `if (dueDate)` tests truthiness: it is false for a
missing `dueDate` and for the empty string. -/
def validateDueDate (env : Env) (dueDate : Option String) : ParsedDueDate :=
  match dueDate with
  | none => .undefined
  | some str =>
    if str = "" then .undefined
    else
      match env.parseDate str with
      | none => .invalid
      | some ms => .date ms

/-- Lines 210-218: the three guarded field assignments. -/
def assignFields (a : Assignment) (title description : Option String)
    (parsedDueDate : ParsedDueDate) : Assignment :=
  let a1 := match title with
    | some t => { a with title := some t }
    | none => a
  let a2 := match description with
    | some d => { a1 with description := some d }
    | none => a1
  match parsedDueDate with
  | .date ms => { a2 with dueDate := ms }
  | _ => a2

/-- The `try` block of `PUT /assignments/:uniqueNo` (lines 193-223). -/
def putAssignmentTry (env : Env) (f : Faults) (s : Store) (uniqueNo : Int) (b : UpdateBody) :
    Outcome × Store :=
  match validateDueDate env b.dueDate with
  | .invalid => (.sent ⟨400, .text invalidDateText⟩, s)
  | parsedDueDate =>
    if f 0 then (.threw .storage, s)
    else
      match findAssignment s uniqueNo with
      | none => (.sent ⟨404, .text notFoundText⟩, s)
      | some assignment =>
        let updated := assignFields assignment b.title b.description parsedDueDate
        match saveAssignment (f 1) s uniqueNo updated with
        | (some e, s1) => (.threw e, s1)
        | (none, s1) => (.sent ⟨200, .json updated⟩, s1)

/-- Handler `app.put("/assignments/:uniqueNo")`: the `catch` of lines 224-227
answers 500. -/
def putAssignment (env : Env) (f : Faults) (s : Store) (uniqueNo : Int) (b : UpdateBody) :
    Response × Store :=
  match putAssignmentTry env f s uniqueNo b with
  | (.sent r, s1) => (r, s1)
  | (.threw _, s1) => (internalErrorResponse, s1)

/-! ## Sequences of requests -/

/-- One request to the server. -/
inductive Op where
  | register (b : RegisterBody)
  | login (b : LoginBody)
  | create (b : CreateBody)
  | get (uniqueNo : Int)
  | update (uniqueNo : Int) (b : UpdateBody)
  | delete (uniqueNo : Int)
  deriving DecidableEq, Repr

/-- Runs the handler of one request under a fault schedule. -/
def step (env : Env) (s : Store) (req : Faults × Op) : Response × Store :=
  match req.2 with
  | .register b => register env req.1 s b
  | .login b => login env req.1 s b
  | .create b => postAssignments env req.1 s b
  | .get k => getAssignment req.1 s k
  | .update k b => putAssignment env req.1 s k b
  | .delete k => deleteAssignment req.1 s k

/-- The store after a sequence of requests, handled one after the other. -/
def run (env : Env) (s : Store) : List (Faults × Op) → Store
  | [] => s
  | req :: rest => run env (step env s req).2 rest

/-- The value `getNextUniqueNo` returns to the handler of this request (line
124), when the handler calls it and the call succeeds. -/
def allocation (env : Env) (s : Store) (req : Faults × Op) : Option Int :=
  match req.2 with
  | .create b =>
    match parseDueDate env b.dueDate, b.uniqueNo with
    | some _, none =>
      match getNextUniqueNo (req.1 0) s with
      | (.ok n, _) => some n
      | (.error _, _) => none
    | _, _ => none
  | _ => none

/-- The values `getNextUniqueNo` returned during a sequence of requests, in call
order. -/
def allocations (env : Env) (s : Store) : List (Faults × Op) → List Int
  | [] => []
  | req :: rest =>
    match allocation env s req with
    | some n => n :: allocations env (step env s req).2 rest
    | none => allocations env (step env s req).2 rest

/-- The successive values of the counter during a sequence of requests; a
missing row counts as 0, the value `$inc` starts from. -/
def seqValue (s : Store) : Int := s.seq.getD 0

/-- The store with nothing in it. -/
def emptyStore : Store := ⟨[], [], none⟩

/-- A sample environment for the concrete examples: the only date that parses
is "2024-01-01" (midnight UTC, in milliseconds). -/
def demoEnv : Env where
  parseDate := fun str => if str = "2024-01-01" then some 1704067200000 else none
  hash := fun p => "hashed:" ++ p
  compare := fun p h => h == "hashed:" ++ p

/-- A request body for the examples: explicit `uniqueNo`, a date that parses. -/
def explicitBody (k : Int) : CreateBody := ⟨some "essay", none, some "2024-01-01", some k⟩

/-- A request body for the examples: no `uniqueNo`, a date that parses. -/
def autoBody : CreateBody := ⟨some "quiz", none, some "2024-01-01", none⟩

/-- A store for the examples: one assignment, number 1, with a description. -/
def oneAssignment : Store := ⟨[], [⟨some "old", some "text", 1704067200000, 1⟩], some 1⟩

/-! ## Interleaved executions

Between two `await`s of one handler, database calls of other handlers may run.
An interleaved execution of any number of handlers is therefore a sequence of
single database calls, each of them atomic. -/

/-- One database call, with the arguments the handlers pass. -/
inductive DbCall where
  | saveUser (name email password : Option String)
  | findUser (email : Option String)
  | findAssignment (k : Int)
  | insertAssignment (a : Assignment)
  | saveAssignment (k : Int) (a : Assignment)
  | deleteOne (k : Int)
  | getNextUniqueNo
  deriving DecidableEq, Repr

/-- The store after one database call; the flag says whether the call fails. -/
def perform (env : Env) (s : Store) (c : Bool × DbCall) : Store :=
  match c.2 with
  | .saveUser name email password => (saveUser env c.1 s name email password).2
  | .findUser _ => s
  | .findAssignment _ => s
  | .insertAssignment a => (insertAssignment c.1 s a).2
  | .saveAssignment k a => (saveAssignment c.1 s k a).2
  | .deleteOne k => (deleteOneAssignment c.1 s k).2
  | .getNextUniqueNo => (getNextUniqueNo c.1 s).2

/-- The number a call of `getNextUniqueNo` returns, when it succeeds. -/
def returned (s : Store) (c : Bool × DbCall) : Option Int :=
  match c.2 with
  | .getNextUniqueNo =>
    match (getNextUniqueNo c.1 s).1 with
    | .ok n => some n
    | .error _ => none
  | _ => none

/-- The store after a sequence of database calls. -/
def performAll (env : Env) (s : Store) : List (Bool × DbCall) → Store
  | [] => s
  | c :: rest => performAll env (perform env s c) rest

/-- The numbers `getNextUniqueNo` returned during a sequence of database calls,
in call order. -/
def returnedAll (env : Env) (s : Store) : List (Bool × DbCall) → List Int
  | [] => []
  | c :: rest =>
    match returned s c with
    | some n => n :: returnedAll env (perform env s c) rest
    | none => returnedAll env (perform env s c) rest

/-- The schedule under which every database call fails. -/
def allFaults : Faults := fun _ => true

/-! ## The sequence: `getNextUniqueNo` and `initializeSequence` -/

/-- C1: on a store whose sequence row is absent, or present with `seq = 0`,
`getNextUniqueNo` returns 1 and leaves `seq = 1`, and a second call returns 2;
on a row with `seq = n` it returns `n + 1` and leaves `seq = n + 1`; nothing
else in the store changes. -/
theorem getNextUniqueNo_returns_successor (users : List User) (assignments : List Assignment) :
    getNextUniqueNo false ⟨users, assignments, none⟩ = (.ok 1, ⟨users, assignments, some 1⟩)
    ∧ getNextUniqueNo false ⟨users, assignments, some 0⟩ = (.ok 1, ⟨users, assignments, some 1⟩)
    ∧ getNextUniqueNo false (getNextUniqueNo false ⟨users, assignments, none⟩).2
        = (.ok 2, ⟨users, assignments, some 2⟩)
    ∧ getNextUniqueNo false (getNextUniqueNo false ⟨users, assignments, some 0⟩).2
        = (.ok 2, ⟨users, assignments, some 2⟩)
    ∧ ∀ n : Int, getNextUniqueNo false ⟨users, assignments, some n⟩
        = (.ok (n + 1), ⟨users, assignments, some (n + 1)⟩) := by
  refine ⟨rfl, rfl, rfl, rfl, fun n => rfl⟩

/-- C10: `initializeSequence` creates the row with `seq = 0` when it is absent
and changes nothing when it is present, whatever its `seq`; running it twice
gives the store of running it once; it does not change what the next
`getNextUniqueNo` returns; and it never touches the assignment collection, also
when a database call fails. -/
theorem initializeSequence_idempotent (users : List User) (assignments : List Assignment) :
    initializeSequence noFaults ⟨users, assignments, none⟩ = (none, ⟨users, assignments, some 0⟩)
    ∧ (∀ n : Int, initializeSequence noFaults ⟨users, assignments, some n⟩
        = (none, ⟨users, assignments, some n⟩))
    ∧ (∀ s : Store, initializeSequence noFaults (initializeSequence noFaults s).2
        = initializeSequence noFaults s)
    ∧ (∀ s : Store, (getNextUniqueNo false (initializeSequence noFaults s).2).1
        = (getNextUniqueNo false s).1)
    ∧ (∀ (f : Faults) (s : Store), (initializeSequence f s).2.assignments = s.assignments) := by
  refine ⟨rfl, fun n => rfl, ?_, ?_, ?_⟩
  · rintro ⟨u, a, _ | n⟩ <;> rfl
  · rintro ⟨u, a, _ | n⟩ <;> rfl
  · rintro f ⟨u, a, _ | n⟩ <;> simp only [initializeSequence] <;> split_ifs <;> rfl

/-! ## Monotonicity of the sequence under arbitrary requests -/

theorem getNextUniqueNo_seq (fault : Bool) (s : Store) :
    (getNextUniqueNo fault s = (.error .storage, s))
    ∨ (getNextUniqueNo fault s = (.ok (seqValue s + 1), { s with seq := some (seqValue s + 1) })) := by
  rcases s with ⟨u, a, _ | n⟩ <;> cases fault <;> simp [getNextUniqueNo, seqValue]

theorem insertAssignment_seq (fault : Bool) (s : Store) (a : Assignment) :
    (insertAssignment fault s a).2.seq = s.seq := by
  unfold insertAssignment
  split_ifs <;> rfl

/-- One request either leaves the sequence row as it was and allocates nothing,
or allocates `seq + 1` and leaves the row at that value. -/
theorem step_seq (env : Env) (s : Store) (req : Faults × Op) :
    (allocation env s req = none ∧ (step env s req).2.seq = s.seq)
    ∨ (allocation env s req = some (seqValue s + 1)
        ∧ (step env s req).2.seq = some (seqValue s + 1)) := by
  rcases req with ⟨f, op⟩
  cases op with
  | register b =>
    left
    simp only [allocation, step, register, registerTry, saveUser, true_and]
    split_ifs <;> rfl
  | login b =>
    left
    simp only [allocation, step, login, loginTry, true_and]
    split_ifs
    · rfl
    · cases findUser s b.email with
      | none => rfl
      | some u =>
        simp only
        cases comparePassword env u b.password with
        | error e => rfl
        | ok v => cases v <;> rfl
  | create b =>
    simp only [allocation, step, postAssignments, postAssignmentsTry]
    cases hd : parseDueDate env b.dueDate with
    | none => left; exact ⟨rfl, rfl⟩
    | some d =>
      cases hu : b.uniqueNo with
      | some k =>
        left
        refine ⟨rfl, ?_⟩
        simp only [chooseUniqueNo]
        split_ifs
        · rfl
        · cases findAssignment s k with
          | some a => rfl
          | none =>
            simp only
            have h := insertAssignment_seq (f 1) s ⟨b.title, b.description, d, k⟩
            revert h
            rcases insertAssignment (f 1) s ⟨b.title, b.description, d, k⟩ with ⟨_ | e, s2⟩ <;>
              exact fun h => h
      | none =>
        simp only [chooseUniqueNo]
        rcases getNextUniqueNo_seq (f 0) s with h | h
        · left
          rw [h]
          exact ⟨rfl, rfl⟩
        · right
          rw [h]
          refine ⟨rfl, ?_⟩
          simp only
          have h2 := insertAssignment_seq (f 1) { s with seq := some (seqValue s + 1) }
            ⟨b.title, b.description, d, seqValue s + 1⟩
          revert h2
          rcases insertAssignment (f 1) { s with seq := some (seqValue s + 1) }
            ⟨b.title, b.description, d, seqValue s + 1⟩ with ⟨_ | e, s2⟩ <;>
              exact fun h => h
  | get k =>
    left
    simp only [allocation, step, getAssignment, getAssignmentTry, true_and]
    split_ifs
    · rfl
    · cases findAssignment s k <;> rfl
  | update k b =>
    left
    simp only [allocation, step, putAssignment, putAssignmentTry, saveAssignment, true_and]
    cases validateDueDate env b.dueDate <;> cases findAssignment s k <;> simp only <;>
      split_ifs <;> rfl
  | delete k =>
    left
    simp only [allocation, step, deleteAssignment, deleteAssignmentTry, deleteOneAssignment,
      true_and]
    cases findAssignment s k <;> simp only <;> split_ifs <;> rfl

theorem step_seqValue_le (env : Env) (s : Store) (req : Faults × Op) :
    seqValue s ≤ seqValue (step env s req).2 := by
  rcases step_seq env s req with ⟨_, h⟩ | ⟨_, h⟩
  · simp [seqValue, h]
  · simp [seqValue, h]

theorem run_append (env : Env) (s : Store) (xs ys : List (Faults × Op)) :
    run env s (xs ++ ys) = run env (run env s xs) ys := by
  induction xs generalizing s with
  | nil => rfl
  | cons x xs ih => exact ih (step env s x).2

theorem run_seqValue_le (env : Env) (s : Store) (reqs : List (Faults × Op)) :
    seqValue s ≤ seqValue (run env s reqs) := by
  induction reqs generalizing s with
  | nil => exact le_refl _
  | cons x xs ih => exact le_trans (step_seqValue_le env s x) (ih (step env s x).2)

theorem allocations_gt (env : Env) (s : Store) (reqs : List (Faults × Op)) :
    ∀ n ∈ allocations env s reqs, seqValue s < n := by
  induction reqs generalizing s with
  | nil => intro n hn; cases hn
  | cons x xs ih =>
    intro n hn
    have hle := step_seqValue_le env s x
    rcases step_seq env s x with ⟨ha, _⟩ | ⟨ha, hs⟩
    · simp only [allocations, ha] at hn
      exact lt_of_le_of_lt hle (ih _ n hn)
    · simp only [allocations, ha, List.mem_cons] at hn
      rcases hn with rfl | hn
      · exact Int.lt_succ_self _
      · exact lt_of_le_of_lt hle (ih _ n hn)

theorem allocations_pairwise (env : Env) (s : Store) (reqs : List (Faults × Op)) :
    (allocations env s reqs).Pairwise (fun m n => m < n) := by
  induction reqs generalizing s with
  | nil => exact List.Pairwise.nil
  | cons x xs ih =>
    rcases step_seq env s x with ⟨ha, _⟩ | ⟨ha, hs⟩
    · simp only [allocations, ha]
      exact ih _
    · simp only [allocations, ha]
      refine List.Pairwise.cons ?_ (ih _)
      intro n hn
      have := allocations_gt env (step env s x).2 xs n hn
      simpa [seqValue, hs] using this

/-- C2: for every initial store and every finite sequence of requests (register,
login, create with or without `uniqueNo`, get, update, delete, each under any
fault schedule), handled one after the other, the counter never decreases from
one point of the sequence to a later one, the values `getNextUniqueNo` returned
are strictly increasing in call order, and so they are pairwise distinct. -/
theorem allocations_strictly_increasing (env : Env) (s : Store)
    (reqs later : List (Faults × Op)) :
    seqValue s ≤ seqValue (run env s reqs)
    ∧ seqValue (run env s reqs) ≤ seqValue (run env s (reqs ++ later))
    ∧ (allocations env s reqs).Pairwise (fun m n => m < n)
    ∧ (allocations env s reqs).Nodup := by
  refine ⟨run_seqValue_le env s reqs, ?_, allocations_pairwise env s reqs, ?_⟩
  · rw [run_append]
    exact run_seqValue_le env _ later
  · exact (allocations_pairwise env s reqs).imp (fun h => ne_of_lt h)

/-- An instance of C2: two allocations with an explicit creation and a deletion
in between return 1 and 2. -/
theorem allocations_strictly_increasing_witness :
    allocations demoEnv emptyStore
        [(noFaults, .create autoBody), (noFaults, .create (explicitBody 7)),
          (noFaults, .delete 1), (noFaults, .create autoBody)] = [1, 2]
    ∧ (allocations demoEnv emptyStore
        [(noFaults, .create autoBody), (noFaults, .create (explicitBody 7)),
          (noFaults, .delete 1), (noFaults, .create autoBody)]).Nodup :=
  ⟨by decide, (allocations_strictly_increasing demoEnv emptyStore _ []).2.2.2⟩

/-! ## Creating assignments -/

theorem findAssignment_eq_none (s : Store) (k : Int) :
    findAssignment s k = none ↔ ∀ a ∈ s.assignments, a.uniqueNo ≠ k := by
  simp [findAssignment, List.find?_eq_none]

theorem findAssignment_isSome (s : Store) (k : Int) (h : ∃ a ∈ s.assignments, a.uniqueNo = k) :
    ∃ a, findAssignment s k = some a := by
  cases hf : findAssignment s k with
  | some a => exact ⟨a, rfl⟩
  | none =>
    obtain ⟨a, ha, hk⟩ := h
    exact absurd hk ((findAssignment_eq_none s k).1 hf a ha)

theorem insertAssignment_fresh (s : Store) (a : Assignment)
    (h : ∀ b ∈ s.assignments, b.uniqueNo ≠ a.uniqueNo) :
    insertAssignment false s a = (none, { s with assignments := s.assignments ++ [a] }) := by
  have : s.assignments.any (fun b => b.uniqueNo == a.uniqueNo) = false := by
    simpa [List.any_eq_false] using h
  simp [insertAssignment, this]

theorem postAssignments_explicit_duplicate (env : Env) (f : Faults) (s : Store) (b : CreateBody)
    (k d : Int) (hf : f 0 = false) (hk : b.uniqueNo = some k)
    (hd : parseDueDate env b.dueDate = some d) (hex : ∃ a ∈ s.assignments, a.uniqueNo = k) :
    postAssignments env f s b = (⟨400, .text duplicateText⟩, s) := by
  obtain ⟨a, ha⟩ := findAssignment_isSome s k hex
  simp [postAssignments, postAssignmentsTry, chooseUniqueNo, hk, hd, hf, ha]

theorem postAssignments_explicit_fresh (env : Env) (s : Store) (b : CreateBody)
    (k d : Int) (hk : b.uniqueNo = some k)
    (hd : parseDueDate env b.dueDate = some d) (hfresh : ∀ a ∈ s.assignments, a.uniqueNo ≠ k) :
    postAssignments env noFaults s b
      = (⟨200, .text "Assignment Created Successfully"⟩,
          { s with assignments := s.assignments ++ [⟨b.title, b.description, d, k⟩] }) := by
  have hnone := (findAssignment_eq_none s k).2 hfresh
  have hins := insertAssignment_fresh s ⟨b.title, b.description, d, k⟩ hfresh
  simp [postAssignments, postAssignmentsTry, chooseUniqueNo, hk, hd, noFaults, hnone, hins]

/-- C3: with an explicit `uniqueNo = k` and a `dueDate` that parses, if an
assignment with that number is stored, `POST /assignments` answers 400 with the
duplicate-identifier text and the store (collection and counter) is unchanged;
and on a store that does not contain `k`, a first creation with `uniqueNo = k`
succeeds and a second one with the same number is rejected in that way. -/
theorem postAssignments_duplicate_rejected (env : Env) (s : Store) (b : CreateBody) (k d : Int)
    (hk : b.uniqueNo = some k) (hd : parseDueDate env b.dueDate = some d) :
    ((∃ a ∈ s.assignments, a.uniqueNo = k) →
      postAssignments env noFaults s b = (⟨400, .text duplicateText⟩, s))
    ∧ ((∀ a ∈ s.assignments, a.uniqueNo ≠ k) →
      (postAssignments env noFaults s b).1 = ⟨200, .text "Assignment Created Successfully"⟩
      ∧ ∀ (b2 : CreateBody) (d2 : Int), b2.uniqueNo = some k →
          parseDueDate env b2.dueDate = some d2 →
          postAssignments env noFaults (postAssignments env noFaults s b).2 b2
            = (⟨400, .text duplicateText⟩, (postAssignments env noFaults s b).2)) := by
  refine ⟨fun hex => postAssignments_explicit_duplicate env noFaults s b k d rfl hk hd hex, ?_⟩
  intro hfresh
  rw [postAssignments_explicit_fresh env s b k d hk hd hfresh]
  refine ⟨rfl, fun b2 d2 hk2 hd2 => ?_⟩
  exact postAssignments_explicit_duplicate env noFaults _ b2 k d2 rfl hk2 hd2
    ⟨⟨b.title, b.description, d, k⟩, by simp, rfl⟩

/-- The example of C3: `uniqueNo = 5` twice on the empty store. -/
theorem postAssignments_duplicate_rejected_witness :
    (postAssignments demoEnv noFaults emptyStore (explicitBody 5)).1.status = 200
    ∧ (postAssignments demoEnv noFaults
        (postAssignments demoEnv noFaults emptyStore (explicitBody 5)).2 (explicitBody 5)).1
        = ⟨400, .text duplicateText⟩ := by
  have h := (postAssignments_duplicate_rejected demoEnv emptyStore (explicitBody 5) 5
    1704067200000 rfl rfl).2 (by simp [emptyStore])
  refine ⟨by rw [h.1], ?_⟩
  rw [h.2 (explicitBody 5) 1704067200000 rfl rfl]

theorem getNextUniqueNo_fst_congr (fault : Bool) (s t : Store) (h : s.seq = t.seq) :
    (getNextUniqueNo fault s).1 = (getNextUniqueNo fault t).1 := by
  unfold getNextUniqueNo
  rw [h]
  cases fault <;> cases t.seq <;> rfl

theorem allocation_congr (env : Env) (s t : Store) (req : Faults × Op) (h : s.seq = t.seq) :
    allocation env s req = allocation env t req := by
  rcases req with ⟨f, op⟩
  cases op <;> try rfl
  case create b =>
    simp only [allocation]
    cases parseDueDate env b.dueDate <;> cases b.uniqueNo <;> try rfl
    simp only
    have h1 := getNextUniqueNo_fst_congr (f 0) s t h
    rcases hs : getNextUniqueNo (f 0) s with ⟨_ | n, s1⟩ <;>
      rcases ht : getNextUniqueNo (f 0) t with ⟨_ | m, t1⟩ <;>
      simp_all

/-- C4: with an explicit `uniqueNo = k` (any integer) that no stored assignment
uses and a `dueDate` that parses, `POST /assignments` succeeds, appends exactly
one assignment, whose `uniqueNo` is `k`, and leaves the users and the counter as
they were; so the next `getNextUniqueNo`, and the allocation of any following
request, return what they would have returned without this creation. -/
theorem postAssignments_explicit_keeps_counter (env : Env) (s : Store) (b : CreateBody)
    (k d : Int) (hk : b.uniqueNo = some k) (hd : parseDueDate env b.dueDate = some d)
    (hfresh : ∀ a ∈ s.assignments, a.uniqueNo ≠ k) :
    postAssignments env noFaults s b
      = (⟨200, .text "Assignment Created Successfully"⟩,
          ⟨s.users, s.assignments ++ [⟨b.title, b.description, d, k⟩], s.seq⟩)
    ∧ (∀ fault : Bool, (getNextUniqueNo fault (postAssignments env noFaults s b).2).1
        = (getNextUniqueNo fault s).1)
    ∧ (∀ req : Faults × Op, allocation env (postAssignments env noFaults s b).2 req
        = allocation env s req) := by
  rw [postAssignments_explicit_fresh env s b k d hk hd hfresh]
  exact ⟨rfl, fun fault => getNextUniqueNo_fst_congr fault _ s rfl,
    fun req => allocation_congr env _ s req rfl⟩

/-- The examples of C4: after creating `uniqueNo = 100` on the empty store the
next allocation is still 1; zero and negative numbers are accepted. -/
theorem postAssignments_explicit_keeps_counter_witness :
    (postAssignments demoEnv noFaults emptyStore (explicitBody 100)).1.status = 200
    ∧ (getNextUniqueNo false
        (postAssignments demoEnv noFaults emptyStore (explicitBody 100)).2).1 = .ok 1
    ∧ (postAssignments demoEnv noFaults emptyStore (explicitBody (-3))).2.assignments
        = [⟨some "essay", none, 1704067200000, -3⟩] := by
  have h := postAssignments_explicit_keeps_counter demoEnv emptyStore (explicitBody 100) 100
    1704067200000 rfl rfl (by simp [emptyStore])
  have h3 := postAssignments_explicit_keeps_counter demoEnv emptyStore (explicitBody (-3)) (-3)
    1704067200000 rfl rfl (by simp [emptyStore])
  refine ⟨by rw [h.1], ?_, by rw [h3.1]; rfl⟩
  rw [h.2.1 false]
  rfl

/-- C5 fails on the code: from the empty store, a creation with the explicit
`uniqueNo = 1` succeeds; the next creation without `uniqueNo` reaches line 133
with `newUniqueNo = 1`, the number of the stored assignment. The unique index
then rejects the insert (answer 400) and the counter stays advanced. -/
theorem auto_allocation_collides :
    run demoEnv emptyStore [(noFaults, .create (explicitBody 1))]
      = ⟨[], [⟨some "essay", none, 1704067200000, 1⟩], none⟩
    ∧ chooseUniqueNo noFaults ⟨[], [⟨some "essay", none, 1704067200000, 1⟩], none⟩ autoBody.uniqueNo
      = (.value 1, ⟨[], [⟨some "essay", none, 1704067200000, 1⟩], some 1⟩)
    ∧ postAssignments demoEnv noFaults ⟨[], [⟨some "essay", none, 1704067200000, 1⟩], none⟩ autoBody
      = (⟨400, .message .duplicateKey⟩,
          ⟨[], [⟨some "essay", none, 1704067200000, 1⟩], some 1⟩) := by
  refine ⟨?_, ?_, ?_⟩ <;> decide

/-! ## Deleting and reading assignments -/

theorem removeFirst_split (k : Int) (a : Assignment) (hk : a.uniqueNo = k) :
    ∀ l : List Assignment, a ∈ l → l.Pairwise (fun x y => x.uniqueNo ≠ y.uniqueNo) →
      ∃ l1 l2, l = l1 ++ a :: l2 ∧ removeFirst k l = l1 ++ l2
        ∧ ∀ b ∈ l1 ++ l2, b.uniqueNo ≠ k := by
  intro l
  induction l with
  | nil => intro h; cases h
  | cons b rest ih =>
    intro hmem hpair
    rw [List.pairwise_cons] at hpair
    rcases List.mem_cons.1 hmem with rfl | hrest
    · refine ⟨[], rest, rfl, ?_, ?_⟩
      · simp [removeFirst, hk]
      · intro c hc
        have := hpair.1 c (by simpa using hc)
        rw [hk] at this
        exact fun h => this h.symm
    · have hb : b.uniqueNo ≠ k := by
        have := hpair.1 a hrest
        rwa [hk] at this
      obtain ⟨l1, l2, h1, h2, h3⟩ := ih hrest hpair.2
      refine ⟨b :: l1, l2, by rw [h1]; rfl, ?_, ?_⟩
      · simp [removeFirst, hb, h2]
      · intro c hc
        have hc2 : c = b ∨ c ∈ l1 ++ l2 := by simpa using hc
        rcases hc2 with rfl | hc2
        · exact hb
        · exact h3 c hc2

/-- C7: on a store whose assignments have pairwise distinct `uniqueNo`: if no
assignment has `uniqueNo = k`, `DELETE /assignments/k` answers 404 and the store
is unchanged; otherwise it answers 200, removes the one record with
`uniqueNo = k` and leaves every other assignment (in order), the users and the
counter unchanged, and `GET /assignments/k` on the resulting store answers 404. -/
theorem deleteAssignment_removes_one (s : Store) (k : Int)
    (hdistinct : s.assignments.Pairwise (fun x y => x.uniqueNo ≠ y.uniqueNo)) :
    ((∀ a ∈ s.assignments, a.uniqueNo ≠ k) →
      deleteAssignment noFaults s k = (⟨404, .text notFoundText⟩, s))
    ∧ (∀ a ∈ s.assignments, a.uniqueNo = k →
      ∃ l1 l2, s.assignments = l1 ++ a :: l2
        ∧ deleteAssignment noFaults s k
            = (⟨200, .text "Assignment Deleted Successfully"⟩, ⟨s.users, l1 ++ l2, s.seq⟩)
        ∧ (∀ b ∈ l1 ++ l2, b.uniqueNo ≠ k)
        ∧ getAssignment noFaults ⟨s.users, l1 ++ l2, s.seq⟩ k
            = (⟨404, .text notFoundText⟩, ⟨s.users, l1 ++ l2, s.seq⟩)) := by
  constructor
  · intro h
    have hnone := (findAssignment_eq_none s k).2 h
    simp [deleteAssignment, deleteAssignmentTry, noFaults, hnone]
  · intro a ha hk
    obtain ⟨l1, l2, h1, h2, h3⟩ := removeFirst_split k a hk s.assignments ha hdistinct
    obtain ⟨a0, hfind⟩ := findAssignment_isSome s k ⟨a, ha, hk⟩
    refine ⟨l1, l2, h1, ?_, h3, ?_⟩
    · simp [deleteAssignment, deleteAssignmentTry, deleteOneAssignment, noFaults, hfind, h2]
    · have hnone := (findAssignment_eq_none ⟨s.users, l1 ++ l2, s.seq⟩ k).2 h3
      simp [getAssignment, getAssignmentTry, noFaults, hnone]

/-- An instance of C7 on a store with the assignments 1, 2 and 3: deleting 2
leaves 1 and 3, and reading 2 afterwards answers 404. -/
theorem deleteAssignment_removes_one_witness :
    deleteAssignment noFaults ⟨[], [⟨none, none, 0, 1⟩, ⟨some "b", none, 0, 2⟩, ⟨none, none, 0, 3⟩], some 3⟩ 7
      = (⟨404, .text notFoundText⟩,
          ⟨[], [⟨none, none, 0, 1⟩, ⟨some "b", none, 0, 2⟩, ⟨none, none, 0, 3⟩], some 3⟩)
    ∧ ∃ l1 l2, [⟨none, none, 0, 1⟩, ⟨some "b", none, 0, 2⟩, ⟨none, none, 0, 3⟩]
          = l1 ++ (⟨some "b", none, 0, 2⟩ : Assignment) :: l2
        ∧ deleteAssignment noFaults
            ⟨[], [⟨none, none, 0, 1⟩, ⟨some "b", none, 0, 2⟩, ⟨none, none, 0, 3⟩], some 3⟩ 2
            = (⟨200, .text "Assignment Deleted Successfully"⟩, ⟨[], l1 ++ l2, some 3⟩)
        ∧ (∀ b ∈ l1 ++ l2, b.uniqueNo ≠ 2)
        ∧ getAssignment noFaults ⟨[], l1 ++ l2, some 3⟩ 2
            = (⟨404, .text notFoundText⟩, ⟨[], l1 ++ l2, some 3⟩) := by
  have h := deleteAssignment_removes_one
    ⟨[], [⟨none, none, 0, 1⟩, ⟨some "b", none, 0, 2⟩, ⟨none, none, 0, 3⟩], some 3⟩
  exact ⟨(h 7 (by decide)).1 (by decide),
    (h 2 (by decide)).2 ⟨some "b", none, 0, 2⟩ (by decide) rfl⟩

/-! ## Updating assignments -/

theorem replaceFirst_split (k : Int) (a : Assignment) :
    ∀ l : List Assignment, l.find? (fun x => x.uniqueNo == k) = some a →
      a.uniqueNo = k ∧ ∃ l1 l2, l = l1 ++ a :: l2 ∧ (∀ c ∈ l1, c.uniqueNo ≠ k)
        ∧ ∀ a2 : Assignment, replaceFirst k a2 l = l1 ++ a2 :: l2 := by
  intro l
  induction l with
  | nil => intro h; cases h
  | cons b rest ih =>
    intro h
    by_cases hb : b.uniqueNo = k
    · have hba : b = a := by simpa [List.find?, hb] using h
      subst hba
      exact ⟨hb, [], rest, rfl, by simp, fun a2 => by simp [replaceFirst, hb]⟩
    · have hbf : (b.uniqueNo == k) = false := by simpa using hb
      have hrest : rest.find? (fun x => x.uniqueNo == k) = some a := by
        simpa [List.find?_cons, hbf] using h
      obtain ⟨hk, l1, l2, h1, h2, h3⟩ := ih hrest
      refine ⟨hk, b :: l1, l2, by rw [h1]; rfl, ?_, fun a2 => ?_⟩
      · intro c hc
        rcases List.mem_cons.1 hc with rfl | hc
        · exact hb
        · exact h2 c hc
      · simp [replaceFirst, hb, h3 a2]

theorem validateDueDate_ne_invalid (env : Env) (dueDate : Option String)
    (h : ∀ str, dueDate = some str → str ≠ "" → env.parseDate str ≠ none) :
    validateDueDate env dueDate ≠ .invalid := by
  unfold validateDueDate
  cases dueDate with
  | none => simp
  | some str =>
    by_cases hs : str = ""
    · simp [hs]
    · have := h str rfl hs
      cases hp : env.parseDate str with
      | none => exact absurd hp this
      | some d => simp [hs, hp]

theorem putAssignment_invalid (env : Env) (f : Faults) (s : Store) (k : Int) (b : UpdateBody)
    (str : String) (hb : b.dueDate = some str) (hs : str ≠ "") (hp : env.parseDate str = none) :
    putAssignment env f s k b = (⟨400, .text invalidDateText⟩, s) := by
  simp [putAssignment, putAssignmentTry, validateDueDate, hb, hs, hp]

/-- C6, as the code has it: the date is validated before the lookup, and an
empty `dueDate` counts as not supplied. A non-empty `dueDate` that does not
parse gives 400 with the store unchanged, whether or not an assignment matches.
Otherwise, if no assignment matches the answer is 404 and the store is
unchanged; if `a` is the match, the answer is 200 with the updated record, which
takes the place of `a` in the collection while every other assignment, the users
and the counter are unchanged. The updated record has `title` and `description`
from the body where supplied and from `a` otherwise, the `uniqueNo` of `a`, and
as `dueDate` the parsed date when a non-empty one was supplied and that of `a`
when it was absent or empty. -/
theorem putAssignment_overwrites_supplied (env : Env) (s : Store) (k : Int) (b : UpdateBody) :
    (∀ str, b.dueDate = some str → str ≠ "" → env.parseDate str = none →
      putAssignment env noFaults s k b = (⟨400, .text invalidDateText⟩, s))
    ∧ ((∀ str, b.dueDate = some str → str ≠ "" → env.parseDate str ≠ none) →
      findAssignment s k = none →
      putAssignment env noFaults s k b = (⟨404, .text notFoundText⟩, s))
    ∧ ((∀ str, b.dueDate = some str → str ≠ "" → env.parseDate str ≠ none) →
      ∀ a, findAssignment s k = some a →
      ∃ a2 l1 l2, s.assignments = l1 ++ a :: l2 ∧ (∀ c ∈ l1, c.uniqueNo ≠ k)
        ∧ putAssignment env noFaults s k b
            = (⟨200, .json a2⟩, ⟨s.users, l1 ++ a2 :: l2, s.seq⟩)
        ∧ a2.title = (match b.title with | some x => some x | none => a.title)
        ∧ a2.description = (match b.description with | some x => some x | none => a.description)
        ∧ a2.uniqueNo = a.uniqueNo
        ∧ (b.dueDate = none ∨ b.dueDate = some "" → a2.dueDate = a.dueDate)
        ∧ (∀ str d, b.dueDate = some str → str ≠ "" → env.parseDate str = some d →
            a2.dueDate = d)) := by
  refine ⟨fun str hb hs hp => putAssignment_invalid env noFaults s k b str hb hs hp, ?_, ?_⟩
  · intro hdate hnone
    have hv := validateDueDate_ne_invalid env b.dueDate hdate
    unfold putAssignment putAssignmentTry
    cases hv2 : validateDueDate env b.dueDate with
    | invalid => exact absurd hv2 hv
    | undefined => simp [noFaults, hnone]
    | date ms => simp [noFaults, hnone]
  · intro hdate a hfind
    have hv := validateDueDate_ne_invalid env b.dueDate hdate
    obtain ⟨_, l1, l2, h1, h2, h3⟩ := replaceFirst_split k a s.assignments hfind
    refine ⟨assignFields a b.title b.description (validateDueDate env b.dueDate), l1, l2,
      h1, h2, ?_, ?_, ?_, ?_, ?_, ?_⟩
    · unfold putAssignment putAssignmentTry
      cases hv2 : validateDueDate env b.dueDate with
      | invalid => exact absurd hv2 hv
      | undefined => simp [noFaults, hfind, saveAssignment, h3]
      | date ms => simp [noFaults, hfind, saveAssignment, h3]
    · unfold assignFields
      cases b.title <;> cases b.description <;> cases validateDueDate env b.dueDate <;> rfl
    · unfold assignFields
      cases b.title <;> cases b.description <;> cases validateDueDate env b.dueDate <;> rfl
    · unfold assignFields
      cases b.title <;> cases b.description <;> cases validateDueDate env b.dueDate <;> rfl
    · intro hd
      have hu : validateDueDate env b.dueDate = .undefined := by
        rcases hd with hd | hd <;> simp [validateDueDate, hd]
      rw [hu]
      unfold assignFields
      cases b.title <;> cases b.description <;> rfl
    · intro str d hb hs hp
      have hu : validateDueDate env b.dueDate = .date d := by
        simp [validateDueDate, hb, hs, hp]
      rw [hu]
      unfold assignFields
      cases b.title <;> cases b.description <;> rfl

/-- The example of C6: an update supplying only the title "X" leaves the
description, the date and the number as they were. -/
theorem putAssignment_overwrites_supplied_witness :
    ∃ a2 l1 l2, oneAssignment.assignments
        = l1 ++ (⟨some "old", some "text", 1704067200000, 1⟩ : Assignment) :: l2
      ∧ putAssignment demoEnv noFaults oneAssignment 1 ⟨some "X", none, none⟩
          = (⟨200, .json a2⟩, ⟨[], l1 ++ a2 :: l2, some 1⟩)
      ∧ a2.title = some "X" ∧ a2.description = some "text"
      ∧ a2.dueDate = 1704067200000 ∧ a2.uniqueNo = 1 := by
  obtain ⟨a2, l1, l2, h1, _, h3, h4, h5, h6, h7, _⟩ :=
    (putAssignment_overwrites_supplied demoEnv oneAssignment 1 ⟨some "X", none, none⟩).2.2
      (by intro str h; cases h) ⟨some "old", some "text", 1704067200000, 1⟩ (by decide)
  exact ⟨a2, l1, l2, h1, h3, h4, h5, h7 (Or.inl rfl), h6⟩

/-- C6 fails as stated in two places. With a `dueDate` that does not parse and no
matching assignment, the answer is 400, not 404. With the empty string as
`dueDate` (which does not parse) the answer is 200 and the record keeps its old
date: the supplied value is not what the record ends with. -/
theorem putAssignment_date_before_lookup :
    findAssignment emptyStore 1 = none
    ∧ demoEnv.parseDate "tomorrow" = none
    ∧ putAssignment demoEnv noFaults emptyStore 1 ⟨some "X", none, some "tomorrow"⟩
        = (⟨400, .text invalidDateText⟩, emptyStore)
    ∧ demoEnv.parseDate "" = none
    ∧ putAssignment demoEnv noFaults oneAssignment 1 ⟨none, none, some ""⟩
        = (⟨200, .json ⟨some "old", some "text", 1704067200000, 1⟩⟩, oneAssignment) := by
  refine ⟨?_, ?_, ?_, ?_, ?_⟩ <;> decide

/-! ## Date validation -/

/-- C8, as the code has it: `POST /assignments` with a missing `dueDate` or one
that does not parse (the empty string included, when it does not parse), and
`PUT /assignments/:uniqueNo` with a non-empty `dueDate` that does not parse,
answer 400 with the invalid-date text and leave the store unchanged (no
assignment added or modified, counter not advanced), under every fault schedule
since no database call is made. `PUT` with the empty string as `dueDate` is
handled exactly as `PUT` without `dueDate`. -/
theorem unparsable_dueDate_rejected (env : Env) (f : Faults) (s : Store) :
    (∀ (b : CreateBody) (str : String), b.dueDate = some str → env.parseDate str = none →
      postAssignments env f s b = (⟨400, .text invalidDateText⟩, s))
    ∧ (∀ b : CreateBody, b.dueDate = none →
      postAssignments env f s b = (⟨400, .text invalidDateText⟩, s))
    ∧ (∀ (k : Int) (b : UpdateBody) (str : String), b.dueDate = some str → str ≠ "" →
      env.parseDate str = none →
      putAssignment env f s k b = (⟨400, .text invalidDateText⟩, s))
    ∧ (∀ (k : Int) (b : UpdateBody), b.dueDate = some "" →
      putAssignment env f s k b = putAssignment env f s k { b with dueDate := none }) := by
  refine ⟨?_, ?_, ?_, ?_⟩
  · intro b str hb hp
    simp [postAssignments, postAssignmentsTry, parseDueDate, hb, hp]
  · intro b hb
    simp [postAssignments, postAssignmentsTry, parseDueDate, hb]
  · intro k b str hb hs hp
    exact putAssignment_invalid env f s k b str hb hs hp
  · intro k b hb
    simp [putAssignment, putAssignmentTry, validateDueDate, hb]

/-- Instances of C8: a creation without `uniqueNo` and an update, both with a
date that does not parse, leave the store (and its counter) as it was. -/
theorem unparsable_dueDate_rejected_witness :
    postAssignments demoEnv noFaults oneAssignment ⟨some "t", none, some "", none⟩
      = (⟨400, .text invalidDateText⟩, oneAssignment)
    ∧ putAssignment demoEnv noFaults oneAssignment 1 ⟨some "X", none, some "tomorrow"⟩
      = (⟨400, .text invalidDateText⟩, oneAssignment) := by
  have h := unparsable_dueDate_rejected demoEnv noFaults oneAssignment
  exact ⟨h.1 ⟨some "t", none, some "", none⟩ "" rfl (by decide),
    h.2.2.1 1 ⟨some "X", none, some "tomorrow"⟩ "tomorrow" rfl (by decide) (by decide)⟩

/-- C8 fails on `PUT` with the empty string: it does not parse, yet the answer
is 200 and the stored assignment is modified. -/
theorem putAssignment_empty_dueDate_accepted :
    demoEnv.parseDate "" = none
    ∧ putAssignment demoEnv noFaults oneAssignment 1 ⟨some "X", none, some ""⟩
        = (⟨200, .json ⟨some "X", some "text", 1704067200000, 1⟩⟩,
            ⟨[], [⟨some "X", some "text", 1704067200000, 1⟩], some 1⟩) := by
  refine ⟨?_, ?_⟩ <;> decide

/-! ## Storage failures -/

/-- C9, as the code has it: when a database call of a handler throws a storage
error, `GET`, `PUT` and `DELETE /assignments/:uniqueNo` answer 500 with
"Internal Server Error", while `POST /register`, `POST /login` and
`POST /assignments` answer 400 with the message of the error. Each database call
of each handler is covered: call 0, and call 1 where the handler reaches it. -/
theorem storage_failure_status (env : Env) (f : Faults) (s : Store) :
    (∀ k, f 0 = true → getAssignment f s k = (⟨500, .text "Internal Server Error"⟩, s))
    ∧ (∀ k, f 0 = true → deleteAssignment f s k = (⟨500, .text "Internal Server Error"⟩, s))
    ∧ (∀ k a, f 0 = false → findAssignment s k = some a → f 1 = true →
        deleteAssignment f s k = (⟨500, .text "Internal Server Error"⟩, s))
    ∧ (∀ k b, validateDueDate env b.dueDate ≠ .invalid → f 0 = true →
        putAssignment env f s k b = (⟨500, .text "Internal Server Error"⟩, s))
    ∧ (∀ k b a, validateDueDate env b.dueDate ≠ .invalid → f 0 = false →
        findAssignment s k = some a → f 1 = true →
        putAssignment env f s k b = (⟨500, .text "Internal Server Error"⟩, s))
    ∧ (∀ b, f 0 = true → register env f s b = (⟨400, .message .storage⟩, s))
    ∧ (∀ b, f 0 = true → login env f s b = (⟨400, .message .storage⟩, s))
    ∧ (∀ b d, parseDueDate env b.dueDate = some d → f 0 = true →
        postAssignments env f s b = (⟨400, .message .storage⟩, s))
    ∧ (∀ b d n s1, parseDueDate env b.dueDate = some d → chooseUniqueNo f s b.uniqueNo = (.value n, s1) →
        f 1 = true → postAssignments env f s b = (⟨400, .message .storage⟩, s1)) := by
  refine ⟨?_, ?_, ?_, ?_, ?_, ?_, ?_, ?_, ?_⟩
  · intro k h0
    simp [getAssignment, getAssignmentTry, h0, internalErrorResponse]
  · intro k h0
    simp [deleteAssignment, deleteAssignmentTry, h0, internalErrorResponse]
  · intro k a h0 hfind h1
    simp [deleteAssignment, deleteAssignmentTry, deleteOneAssignment, h0, h1, hfind,
      internalErrorResponse]
  · intro k b hv h0
    unfold putAssignment putAssignmentTry
    cases hv2 : validateDueDate env b.dueDate with
    | invalid => exact absurd hv2 hv
    | undefined => simp [h0, internalErrorResponse]
    | date ms => simp [h0, internalErrorResponse]
  · intro k b a hv h0 hfind h1
    unfold putAssignment putAssignmentTry
    cases hv2 : validateDueDate env b.dueDate with
    | invalid => exact absurd hv2 hv
    | undefined => simp [h0, h1, hfind, saveAssignment, internalErrorResponse]
    | date ms => simp [h0, h1, hfind, saveAssignment, internalErrorResponse]
  · intro b h0
    simp [register, registerTry, saveUser, h0]
  · intro b h0
    simp [login, loginTry, h0]
  · intro b d hd h0
    cases hu : b.uniqueNo <;>
      simp [postAssignments, postAssignmentsTry, chooseUniqueNo, getNextUniqueNo, hd, h0, hu]
  · intro b d n s1 hd hc h1
    simp [postAssignments, postAssignmentsTry, hd, hc, insertAssignment, h1]

/-- Instances of C9 under the schedule where every database call fails. -/
theorem storage_failure_status_witness :
    (getAssignment allFaults oneAssignment 1).1.status = 500
    ∧ (deleteAssignment allFaults oneAssignment 1).1.status = 500
    ∧ (putAssignment demoEnv allFaults oneAssignment 1 ⟨some "X", none, none⟩).1.status = 500 := by
  have h := storage_failure_status demoEnv allFaults oneAssignment
  refine ⟨?_, ?_, ?_⟩
  · rw [h.1 1 rfl]
  · rw [h.2.1 1 rfl]
  · rw [h.2.2.2.1 1 ⟨some "X", none, none⟩ (by decide) rfl]

/-- C9 fails on the three `POST` handlers: with a failing database call they
answer 400, not 500. -/
theorem post_handlers_storage_failure_400 :
    register demoEnv allFaults emptyStore ⟨some "Ann", some "ann@example.org", some "pw"⟩
      = (⟨400, .message .storage⟩, emptyStore)
    ∧ login demoEnv allFaults emptyStore ⟨some "ann@example.org", some "pw"⟩
      = (⟨400, .message .storage⟩, emptyStore)
    ∧ postAssignments demoEnv allFaults emptyStore autoBody
      = (⟨400, .message .storage⟩, emptyStore) := by
  refine ⟨?_, ?_, ?_⟩ <;> decide

/-! ## The unique index keeps the stored numbers distinct -/

/-- Pairwise distinct `uniqueNo`, as a duplicate-free list of numbers. -/
theorem distinct_iff_map (l : List Assignment) :
    l.Pairwise (fun x y => x.uniqueNo ≠ y.uniqueNo) ↔ (l.map (fun x => x.uniqueNo)).Nodup := by
  rw [List.Nodup, List.pairwise_map]

theorem insertAssignment_distinct (fault : Bool) (s : Store) (a : Assignment)
    (h : s.assignments.Pairwise (fun x y => x.uniqueNo ≠ y.uniqueNo)) :
    (insertAssignment fault s a).2.assignments.Pairwise (fun x y => x.uniqueNo ≠ y.uniqueNo) := by
  unfold insertAssignment
  split_ifs with h1 h2
  · exact h
  · exact h
  · have hfresh : ∀ b ∈ s.assignments, b.uniqueNo ≠ a.uniqueNo := by
      simpa [List.any_eq_true] using h2
    simp only [List.pairwise_append, List.pairwise_cons, List.mem_singleton]
    exact ⟨h, ⟨by simp, List.Pairwise.nil⟩, fun x hx y hy => by rw [hy]; exact hfresh x hx⟩

theorem replaceFirst_map (k : Int) (a : Assignment) (hk : a.uniqueNo = k) (l : List Assignment) :
    (replaceFirst k a l).map (fun x => x.uniqueNo) = l.map (fun x => x.uniqueNo) := by
  induction l with
  | nil => rfl
  | cons b rest ih =>
    by_cases hb : b.uniqueNo = k
    · simp [replaceFirst, hb, hk]
    · simp [replaceFirst, hb, ih]

theorem removeFirst_sublist (k : Int) (l : List Assignment) : (removeFirst k l).Sublist l := by
  induction l with
  | nil => exact List.Sublist.slnil
  | cons b rest ih =>
    by_cases hb : b.uniqueNo = k
    · simp [removeFirst, hb]
    · simp [removeFirst, hb, ih]

theorem assignFields_uniqueNo (a : Assignment) (title description : Option String)
    (p : ParsedDueDate) : (assignFields a title description p).uniqueNo = a.uniqueNo := by
  unfold assignFields
  cases title <;> cases description <;> cases p <;> rfl

theorem chooseUniqueNo_assignments (f : Faults) (s : Store) (u : Option Int) :
    (chooseUniqueNo f s u).2.assignments = s.assignments := by
  unfold chooseUniqueNo
  cases u with
  | none =>
    simp only
    rcases getNextUniqueNo_seq (f 0) s with h | h <;> rw [h]
  | some k =>
    simp only
    split_ifs
    · rfl
    · cases findAssignment s k <;> rfl

/-- Every request keeps the stored `uniqueNo` pairwise distinct. -/
theorem step_distinct (env : Env) (s : Store) (req : Faults × Op)
    (h : s.assignments.Pairwise (fun x y => x.uniqueNo ≠ y.uniqueNo)) :
    (step env s req).2.assignments.Pairwise (fun x y => x.uniqueNo ≠ y.uniqueNo) := by
  rcases req with ⟨f, op⟩
  cases op with
  | register b =>
    simp only [step, register, registerTry, saveUser]
    split_ifs <;> exact h
  | login b =>
    simp only [step, login, loginTry]
    split_ifs
    · exact h
    · cases findUser s b.email with
      | none => exact h
      | some u =>
        simp only
        cases comparePassword env u b.password with
        | error e => exact h
        | ok v => cases v <;> exact h
  | create b =>
    simp only [step, postAssignments, postAssignmentsTry]
    cases parseDueDate env b.dueDate with
    | none => exact h
    | some d =>
      simp only
      have hc := chooseUniqueNo_assignments f s b.uniqueNo
      rcases hch : chooseUniqueNo f s b.uniqueNo with ⟨n | _ | e, s1⟩
      · rw [hch] at hc
        have h1 : s1.assignments.Pairwise (fun x y => x.uniqueNo ≠ y.uniqueNo) := by
          rw [show s1.assignments = s.assignments from hc]
          exact h
        have h2 := insertAssignment_distinct (f 1) s1 ⟨b.title, b.description, d, n⟩ h1
        simp only
        rcases hins : insertAssignment (f 1) s1 ⟨b.title, b.description, d, n⟩ with ⟨_ | e, s2⟩
        · rw [hins] at h2
          exact h2
        · rw [hins] at h2
          exact h2
      · rw [hch] at hc
        rw [show s1.assignments = s.assignments from hc]
        exact h
      · rw [hch] at hc
        rw [show s1.assignments = s.assignments from hc]
        exact h
  | get k =>
    simp only [step, getAssignment, getAssignmentTry]
    split_ifs
    · exact h
    · cases findAssignment s k <;> exact h
  | update k b =>
    simp only [step, putAssignment, putAssignmentTry, saveAssignment]
    have key : ∀ p : ParsedDueDate, ∀ a, findAssignment s k = some a →
        (replaceFirst k (assignFields a b.title b.description p) s.assignments).Pairwise
          (fun x y => x.uniqueNo ≠ y.uniqueNo) := by
      intro p a hfind
      have hk := (replaceFirst_split k a s.assignments hfind).1
      rw [distinct_iff_map, replaceFirst_map k _ (by rw [assignFields_uniqueNo, hk]),
        ← distinct_iff_map]
      exact h
    cases hv : validateDueDate env b.dueDate <;> cases hfind : findAssignment s k <;>
      simp only <;> (try split_ifs) <;> first | exact h | exact key _ _ hfind
  | delete k =>
    simp only [step, deleteAssignment, deleteAssignmentTry, deleteOneAssignment]
    cases findAssignment s k <;> simp only <;> split_ifs <;>
      first | exact h | exact h.sublist (removeFirst_sublist k s.assignments)

/-- A sequence of requests keeps the stored `uniqueNo` pairwise distinct; in
particular every store reached from the empty store has that property. -/
theorem run_distinct (env : Env) (s : Store) (reqs : List (Faults × Op))
    (h : s.assignments.Pairwise (fun x y => x.uniqueNo ≠ y.uniqueNo)) :
    (run env s reqs).assignments.Pairwise (fun x y => x.uniqueNo ≠ y.uniqueNo) := by
  induction reqs generalizing s with
  | nil => exact h
  | cons x xs ih => exact ih _ (step_distinct env s x h)

/-! ## Interleaved executions: the sequence under arbitrary database calls -/

theorem perform_seq (env : Env) (s : Store) (c : Bool × DbCall) :
    (returned s c = none ∧ (perform env s c).seq = s.seq)
    ∨ (returned s c = some (seqValue s + 1)
        ∧ (perform env s c).seq = some (seqValue s + 1)) := by
  rcases c with ⟨fault, call⟩
  cases call with
  | saveUser n e p =>
    left
    simp only [returned, perform, saveUser, true_and]
    split_ifs <;> rfl
  | findUser e => left; exact ⟨rfl, rfl⟩
  | findAssignment k => left; exact ⟨rfl, rfl⟩
  | insertAssignment a => left; exact ⟨rfl, insertAssignment_seq fault s a⟩
  | saveAssignment k a =>
    left
    simp only [returned, perform, saveAssignment, true_and]
    split_ifs <;> rfl
  | deleteOne k =>
    left
    simp only [returned, perform, deleteOneAssignment, true_and]
    split_ifs <;> rfl
  | getNextUniqueNo =>
    simp only [returned, perform]
    rcases getNextUniqueNo_seq fault s with h | h
    · left; rw [h]; exact ⟨rfl, rfl⟩
    · right; rw [h]; exact ⟨rfl, rfl⟩

theorem perform_seqValue_le (env : Env) (s : Store) (c : Bool × DbCall) :
    seqValue s ≤ seqValue (perform env s c) := by
  rcases perform_seq env s c with ⟨_, h⟩ | ⟨_, h⟩
  · simp [seqValue, h]
  · simp [seqValue, h]

theorem performAll_seqValue_le (env : Env) (s : Store) (calls : List (Bool × DbCall)) :
    seqValue s ≤ seqValue (performAll env s calls) := by
  induction calls generalizing s with
  | nil => exact le_refl _
  | cons c cs ih => exact le_trans (perform_seqValue_le env s c) (ih (perform env s c))

theorem returnedAll_gt (env : Env) (s : Store) (calls : List (Bool × DbCall)) :
    ∀ n ∈ returnedAll env s calls, seqValue s < n := by
  induction calls generalizing s with
  | nil => intro n hn; cases hn
  | cons c cs ih =>
    intro n hn
    have hle := perform_seqValue_le env s c
    rcases perform_seq env s c with ⟨ha, _⟩ | ⟨ha, hs⟩
    · simp only [returnedAll, ha] at hn
      exact lt_of_le_of_lt hle (ih _ n hn)
    · simp only [returnedAll, ha, List.mem_cons] at hn
      rcases hn with rfl | hn
      · exact Int.lt_succ_self _
      · exact lt_of_le_of_lt hle (ih _ n hn)

/-- In every sequence of database calls, whatever handlers they come from and
however these are interleaved, the counter never decreases and the numbers
returned by `getNextUniqueNo` are strictly increasing in call order. -/
theorem returnedAll_pairwise (env : Env) (s : Store) (calls : List (Bool × DbCall)) :
    seqValue s ≤ seqValue (performAll env s calls)
    ∧ (returnedAll env s calls).Pairwise (fun m n => m < n) := by
  refine ⟨performAll_seqValue_le env s calls, ?_⟩
  induction calls generalizing s with
  | nil => exact List.Pairwise.nil
  | cons c cs ih =>
    rcases perform_seq env s c with ⟨ha, _⟩ | ⟨ha, hs⟩
    · simp only [returnedAll, ha]
      exact ih _
    · simp only [returnedAll, ha]
      refine List.Pairwise.cons ?_ (ih _)
      intro n hn
      have := returnedAll_gt env (perform env s c) cs n hn
      simpa [seqValue, hs] using this

/-- The handler-level model is an instance of the call-level one: the run of one
handler changes the store as a sequence of at most two database calls does (its
lookups leave the store as it is), with the same allocation. -/
theorem step_as_calls (env : Env) (s : Store) (req : Faults × Op) :
    ∃ calls : List (Bool × DbCall), calls.length ≤ 2
      ∧ performAll env s calls = (step env s req).2
      ∧ returnedAll env s calls = (allocation env s req).toList := by
  rcases req with ⟨f, op⟩
  cases op with
  | register b =>
    refine ⟨[(f 0, .saveUser b.name b.email b.password)], by simp, ?_, rfl⟩
    simp only [performAll, perform, step, register, registerTry]
    rcases saveUser env (f 0) s b.name b.email b.password with ⟨_ | e, s1⟩ <;> rfl
  | login b =>
    refine ⟨[], by simp, ?_, rfl⟩
    simp only [performAll, step, login, loginTry]
    split_ifs
    · rfl
    · cases findUser s b.email with
      | none => rfl
      | some u =>
        simp only
        cases comparePassword env u b.password with
        | error e => rfl
        | ok v => cases v <;> rfl
  | create b =>
    simp only [step, postAssignments, postAssignmentsTry, allocation]
    cases hd : parseDueDate env b.dueDate with
    | none => exact ⟨[], by simp, rfl, rfl⟩
    | some d =>
      cases hu : b.uniqueNo with
      | none =>
        simp only [chooseUniqueNo]
        rcases hg : getNextUniqueNo (f 0) s with ⟨e | n, s1⟩
        · refine ⟨[(f 0, .getNextUniqueNo)], by simp, ?_, ?_⟩
          · simp [performAll, perform, hg]
          · simp [returnedAll, returned, hg]
        · refine ⟨[(f 0, .getNextUniqueNo),
            (f 1, .insertAssignment ⟨b.title, b.description, d, n⟩)], by simp, ?_, ?_⟩
          · simp only [performAll, perform, hg]
            rcases insertAssignment (f 1) s1 ⟨b.title, b.description, d, n⟩ with ⟨_ | e, s2⟩ <;> rfl
          · simp [returnedAll, returned, hg]
      | some k =>
        simp only [chooseUniqueNo]
        by_cases h0 : f 0 = true
        · exact ⟨[], by simp, by simp [performAll, h0], rfl⟩
        · cases hfind : findAssignment s k with
          | some a => exact ⟨[], by simp, by simp [performAll, h0], rfl⟩
          | none =>
            refine ⟨[(f 1, .insertAssignment ⟨b.title, b.description, d, k⟩)], by simp, ?_, rfl⟩
            rcases hins : insertAssignment (f 1) s ⟨b.title, b.description, d, k⟩
              with ⟨_ | e, s2⟩ <;> simp [performAll, perform, h0, hins]
  | get k =>
    refine ⟨[], by simp, ?_, rfl⟩
    simp only [performAll, step, getAssignment, getAssignmentTry]
    split_ifs
    · rfl
    · cases findAssignment s k <;> rfl
  | update k b =>
    simp only [step, putAssignment, putAssignmentTry, allocation]
    by_cases h0 : f 0 = true
    · refine ⟨[], by simp, ?_, rfl⟩
      cases validateDueDate env b.dueDate <;> simp [performAll, h0]
    · cases hfind : findAssignment s k with
      | none =>
        refine ⟨[], by simp, ?_, rfl⟩
        cases validateDueDate env b.dueDate <;> simp [performAll, h0]
      | some a =>
        cases hv : validateDueDate env b.dueDate with
        | invalid => exact ⟨[], by simp, rfl, rfl⟩
        | undefined =>
          refine ⟨[(f 1, .saveAssignment k (assignFields a b.title b.description .undefined))],
            by simp, ?_, rfl⟩
          simp only [performAll, perform, h0]
          rcases saveAssignment (f 1) s k (assignFields a b.title b.description .undefined)
            with ⟨_ | e, s2⟩ <;> rfl
        | date ms =>
          refine ⟨[(f 1, .saveAssignment k (assignFields a b.title b.description (.date ms)))],
            by simp, ?_, rfl⟩
          simp only [performAll, perform, h0]
          rcases saveAssignment (f 1) s k (assignFields a b.title b.description (.date ms))
            with ⟨_ | e, s2⟩ <;> rfl
  | delete k =>
    simp only [step, deleteAssignment, deleteAssignmentTry, allocation]
    by_cases h0 : f 0 = true
    · exact ⟨[], by simp, by simp [performAll, h0], rfl⟩
    · cases hfind : findAssignment s k with
      | none => exact ⟨[], by simp, by simp [performAll, h0], rfl⟩
      | some a =>
        refine ⟨[(f 1, .deleteOne k)], by simp, ?_, rfl⟩
        simp only [performAll, perform, h0]
        rcases deleteOneAssignment (f 1) s k with ⟨_ | e, s2⟩ <;> rfl

end StudentManageSystem
